import Mathlib

/-!
Shallow embedding of `src/culture.c` (atheme-services translation framework):
two exact-match string-to-string caches (an internal table and a language
table), a two-stage translation lookup, and a language registry backed by an
append-ordered list.

C strings are modelled as `List Char`.  The module's global state (the two
patricia trees and the language list) is modelled as an explicit
`CultureState` record threaded through the operations; each C function that
mutates a global becomes a function from `CultureState` to `CultureState`.
-/

/-- A C string (byte sequence without the trailing NUL). -/
abbrev CStr := List Char

/-- Modelled from the spec: `mowgli_patricia_t` with `noopcanon` is an
exact-match associative cache from string keys to values; the module stores
`translation_t` records, so the value carried per key is the replacement
string.  Modelled as an association list in insertion order. -/
abbrev mowgli_patricia_t := List (CStr × CStr)

/-- Modelled from the spec: `mowgli_patricia_retrieve` returns the stored
value for an exact key match and NULL (here `none`) on a miss; no prefix
matching, no case folding. -/
def mowgli_patricia_retrieve (tree : mowgli_patricia_t) (key : CStr) : Option CStr :=
  match tree.find? (fun e => e.1 == key) with
  | some e => some e.2
  | none => none

/-- Modelled from the spec: `mowgli_patricia_add` stores a new entry under a
key.  Inserting a duplicate key is rejected (the existing entry is kept), the
documented behavior of the mowgli container; the spec leaves duplicate
insertion implementation-defined. -/
def mowgli_patricia_add (tree : mowgli_patricia_t) (key val : CStr) : mowgli_patricia_t :=
  match mowgli_patricia_retrieve tree key with
  | some _ => tree
  | none => tree ++ [(key, val)]

/-- Modelled from the spec: `mowgli_patricia_delete` removes the entry for a
key if present (returning it for the caller to free) and is a no-op when the
key is absent. -/
def mowgli_patricia_delete (tree : mowgli_patricia_t) (key : CStr) : mowgli_patricia_t :=
  tree.filter (fun e => !(e.1 == key))

/-- Modelled from the spec: `BUFSIZE` is the implementation-defined fixed
buffer size bounding key/value lengths in the display-variant create; the
spec gives 512 bytes as the example size. -/
def BUFSIZE : Nat := 512

/-- Modelled from the spec: `strlcpy(dst, src, size)` copies at most
`size - 1` bytes of `src` into `dst` and NUL-terminates; longer input is
truncated silently. -/
def strlcpy (src : CStr) (size : Nat) : CStr :=
  src.take (size - 1)

/-- Modelled from the spec: `strlcat(dst, src, size)` appends `src` to `dst`
keeping the total length below `size`; overflow is truncated silently. -/
def strlcat (dst src : CStr) (size : Nat) : CStr :=
  dst ++ src.take (size - 1 - dst.length)

/-- Modelled from the spec: `replace(buf, size, "\\2", "\2")` rewrites, in a
single left-to-right scan, every occurrence of the two-character sequence
backslash + '2' to the single control byte 0x02.  The replacement is shorter
than the pattern, so the buffer-space check of the C helper never fires. -/
def replace_backslash2 : CStr → CStr
  | '\\' :: '2' :: rest => Char.ofNat 2 :: replace_backslash2 rest
  | c :: rest => c :: replace_backslash2 rest
  | [] => []

/-- Scan deciding whether the two-character sequence backslash + '2' occurs
in a string, matching the scan order of `replace_backslash2`. -/
def containsEsc : CStr → Bool
  | '\\' :: '2' :: _ => true
  | _ :: rest => containsEsc rest
  | [] => false

/-- `LANG_VALID` flag bit: catalogs exist for this language. -/
def LANG_VALID : Nat := 1

/-- `struct language_`: a registry record (list node omitted; ordering is
carried by the containing list). -/
structure language_ where
  name : CStr
  flags : Nat
deriving DecidableEq

/-- `language_find` on the registry list: linear scan for an exact,
case-sensitive name match. -/
def language_find_list (langs : List language_) (name : CStr) : Option language_ :=
  langs.find? (fun l => l.name == name)

/-- `language_add` on the registry list: returns the existing record when the
name is present (no mutation); otherwise appends a fresh record and returns
it.  The fresh record's validity is unset (`flags = 0`): modelled from the
spec, `add` "creates a new record with validity unset" (the zeroing of the
allocation is outside `src/`). -/
def language_add_list (langs : List language_) (name : CStr) : language_ × List language_ :=
  match language_find_list langs name with
  | some l => (l, langs)
  | none =>
    let l : language_ := { name := name, flags := 0 }
    (l, langs ++ [l])

/-- The in-place `lang->flags |= LANG_VALID` performed by `language_init` on
the record `language_add` returned: updates the record with that name inside
the list (the registry keeps names unique, so at most one record changes). -/
def set_lang_valid (langs : List language_) (name : CStr) : List language_ :=
  langs.map (fun l => if l.name == name then { l with flags := l.flags ||| LANG_VALID } else l)

/-- One `language_init` registration step: `lang = language_add(name);
lang->flags |= LANG_VALID`. -/
def language_add_valid (langs : List language_) (name : CStr) : List language_ :=
  set_lang_valid (language_add_list langs name).2 name

/-- The directory-entry filter of `language_init`: keep entries whose name
does not start with '.' and is neither "all_languages" nor "locale.alias". -/
def keepDirent (e : CStr) : Bool :=
  e.head? != some '.' && e != "all_languages".data && e != "locale.alias".data

/-- `language_init` on the registry list.  `dirents` models the catalog
directory scan: `none` when `opendir(LOCALEDIR)` fails (missing or unreadable
directory), `some es` for the entry names `readdir` yields.  The builtin
"en" is registered valid first; then each surviving entry is registered
valid. -/
def language_init_list (dirents : Option (List CStr)) (langs : List language_) : List language_ :=
  let langs1 := language_add_valid langs ("en".data)
  match dirents with
  | none => langs1
  | some es => es.foldl (fun acc e => if keepDirent e then language_add_valid acc e else acc) langs1

/-- `language_names` on the registry list: space-separated names of the valid
records, in registry order, built by `strlcat` into a 512-byte buffer. -/
def language_names_list (langs : List language_) : CStr :=
  langs.foldl (fun names l =>
    if (l.flags &&& LANG_VALID) != 0 then
      let names1 := if names != [] then strlcat names [' '] 512 else names
      strlcat names1 l.name 512
    else names) []

/-- The module's global state: the two patricia trees of `culture.c` and the
language registry list. -/
structure CultureState where
  itranslation_tree : mowgli_patricia_t
  translation_tree : mowgli_patricia_t
  language_list : List language_
deriving DecidableEq

/-- `translation_init`: both trees start empty; the static `language_list`
starts empty as well. -/
def translation_init : CultureState :=
  { itranslation_tree := [], translation_tree := [], language_list := [] }

/-- `translation_get`: look the input up in the internal tree and, when found,
replace the working string by the internal replacement; then look the working
string up in the language tree and return its replacement when found;
otherwise return the working string. -/
def translation_get (st : CultureState) (str : CStr) : CStr :=
  let str1 :=
    match mowgli_patricia_retrieve st.itranslation_tree str with
    | some repl => repl
    | none => str
  match mowgli_patricia_retrieve st.translation_tree str1 with
  | some repl => repl
  | none => str1

/-- `itranslation_create`: store key and value verbatim in the internal
tree. -/
def itranslation_create (st : CultureState) (str trans : CStr) : CultureState :=
  { st with itranslation_tree := mowgli_patricia_add st.itranslation_tree str trans }

/-- `itranslation_destroy`: delete the entry for the verbatim key from the
internal tree; no-op when absent. -/
def itranslation_destroy (st : CultureState) (str : CStr) : CultureState :=
  { st with itranslation_tree := mowgli_patricia_delete st.itranslation_tree str }

/-- `translation_create`: copy key and value through a `BUFSIZE` buffer
(truncating), rewrite every backslash + '2' to the 0x02 byte, and store the
results in the language tree. -/
def translation_create (st : CultureState) (str trans : CStr) : CultureState :=
  let name := replace_backslash2 (strlcpy str BUFSIZE)
  let repl := replace_backslash2 (strlcpy trans BUFSIZE)
  { st with translation_tree := mowgli_patricia_add st.translation_tree name repl }

/-- `translation_destroy`: delete the entry for the verbatim key from the
language tree (no rewrite of the argument); no-op when absent. -/
def translation_destroy (st : CultureState) (str : CStr) : CultureState :=
  { st with translation_tree := mowgli_patricia_delete st.translation_tree str }

/-- `language_add` at the state level: returns the found-or-created record and
the updated state. -/
def language_add (st : CultureState) (name : CStr) : language_ × CultureState :=
  ((language_add_list st.language_list name).1,
   { st with language_list := (language_add_list st.language_list name).2 })

/-- `language_find` at the state level. -/
def language_find (st : CultureState) (name : CStr) : Option language_ :=
  language_find_list st.language_list name

/-- `language_init` at the state level. -/
def language_init (st : CultureState) (dirents : Option (List CStr)) : CultureState :=
  { st with language_list := language_init_list dirents st.language_list }

/-- `language_names` at the state level. -/
def language_names (st : CultureState) : CStr :=
  language_names_list st.language_list

/-- `language_get_name`: accessor for the stored name. -/
def language_get_name (lang : language_) : CStr :=
  lang.name

/-- `language_is_valid`: `(lang->flags & LANG_VALID) != 0`. -/
def language_is_valid (lang : language_) : Bool :=
  (lang.flags &&& LANG_VALID) != 0

/-- A registry evolves without losing records or dropping validity: every
record of the old registry has a successor with the same name, still valid if
it was valid. -/
def preservesValid (a b : List language_) : Prop :=
  ∀ l ∈ a, ∃ m ∈ b, m.name = l.name ∧ (language_is_valid l = true → language_is_valid m = true)

theorem replace_length_le (l : CStr) : (replace_backslash2 l).length ≤ l.length := by
  induction l using replace_backslash2.induct <;> simp [replace_backslash2] <;> omega

theorem replace_cons_two (l t : CStr) (h : replace_backslash2 l = '2' :: t) :
    ∃ r, l = '2' :: r := by
  induction l using replace_backslash2.induct with
  | case1 rest ih => simp [replace_backslash2] at h
  | case2 c rest hne ih =>
    simp [replace_backslash2] at h
    exact ⟨rest, by rw [h.1]⟩
  | case3 => simp [replace_backslash2] at h

theorem replace_length_lt (l : CStr) (h : containsEsc l = true) :
    (replace_backslash2 l).length < l.length := by
  induction l using replace_backslash2.induct with
  | case1 rest ih =>
    have := replace_length_le rest
    simp [replace_backslash2]; omega
  | case2 c rest hne ih =>
    rw [containsEsc.eq_def] at h
    split at h
    · rename_i heq
      injection heq with h1 h2
      exact (hne _ h1 h2).elim
    · rename_i heq
      injection heq with h1 h2
      simp [replace_backslash2]
      exact ih (h2 ▸ h)
    · simp at h
  | case3 => simp [containsEsc] at h

theorem containsEsc_replace (l : CStr) : containsEsc (replace_backslash2 l) = false := by
  induction l using replace_backslash2.induct with
  | case1 rest ih =>
    simpa [replace_backslash2, containsEsc] using ih
  | case2 c rest hne ih =>
    show containsEsc (replace_backslash2 (c :: rest)) = false
    have hrw : replace_backslash2 (c :: rest) = c :: replace_backslash2 rest := by
      simp [replace_backslash2]
    rw [hrw, containsEsc.eq_def]
    split
    · rename_i heq
      injection heq with h1 h2
      obtain ⟨r, hr⟩ := replace_cons_two rest _ h2
      exact (hne r h1 hr).elim
    · rename_i heq
      injection heq with h1 h2
      rw [← h2]; exact ih
    · rfl
  | case3 => simp [replace_backslash2, containsEsc]

theorem find?_pred_congr {α : Type} (p q : α → Bool) (l : List α)
    (h : ∀ a, p a = q a) : l.find? p = l.find? q := by
  induction l with
  | nil => rfl
  | cons x xs ih => simp only [List.find?_cons, h x, ih]

theorem retrieve_eq_none (tree : mowgli_patricia_t) (key : CStr) :
    mowgli_patricia_retrieve tree key = none ↔ ∀ e ∈ tree, e.1 ≠ key := by
  unfold mowgli_patricia_retrieve
  constructor
  · intro h e he
    cases hf : tree.find? (fun e => e.1 == key) with
    | none =>
      have := List.find?_eq_none.mp hf e he
      simpa using this
    | some x => rw [hf] at h; simp at h
  · intro h
    cases hf : tree.find? (fun e => e.1 == key) with
    | none => simp
    | some x =>
      have hmem := List.mem_of_find?_eq_some hf
      have hpred := List.find?_some hf
      simp at hpred
      exact (h x hmem hpred).elim

theorem retrieve_append (t1 t2 : mowgli_patricia_t) (key : CStr)
    (h : mowgli_patricia_retrieve t1 key = none) :
    mowgli_patricia_retrieve (t1 ++ t2) key = mowgli_patricia_retrieve t2 key := by
  unfold mowgli_patricia_retrieve at *
  rw [List.find?_append]
  cases hf : t1.find? (fun e => e.1 == key) with
  | none => simp
  | some x => rw [hf] at h; simp at h

theorem retrieve_delete_self (tree : mowgli_patricia_t) (key : CStr) :
    mowgli_patricia_retrieve (mowgli_patricia_delete tree key) key = none := by
  rw [retrieve_eq_none]
  intro e he
  unfold mowgli_patricia_delete at he
  have := List.of_mem_filter he
  simpa using this

theorem retrieve_delete_other (tree : mowgli_patricia_t) (key other : CStr)
    (h : other ≠ key) :
    mowgli_patricia_retrieve (mowgli_patricia_delete tree key) other =
      mowgli_patricia_retrieve tree other := by
  unfold mowgli_patricia_retrieve mowgli_patricia_delete
  rw [List.find?_filter]
  congr 1
  apply find?_pred_congr
  intro e
  by_cases he : e.1 = other
  · subst he
    have hk : ¬ e.1 = key := fun hh => h hh
    simp [hk]
  · simp [he]

theorem delete_absent (tree : mowgli_patricia_t) (key : CStr)
    (h : mowgli_patricia_retrieve tree key = none) :
    mowgli_patricia_delete tree key = tree := by
  rw [retrieve_eq_none] at h
  unfold mowgli_patricia_delete
  rw [List.filter_eq_self]
  intro e he
  simpa using h e he

theorem language_find_list_eq_none (langs : List language_) (name : CStr) :
    language_find_list langs name = none ↔ ∀ l ∈ langs, l.name ≠ name := by
  unfold language_find_list
  rw [List.find?_eq_none]
  constructor
  · intro h l hl
    have := h l hl
    simpa using this
  · intro h l hl
    simpa using h l hl

theorem language_find_list_some (langs : List language_) (name : CStr) (l : language_)
    (h : language_find_list langs name = some l) : l ∈ langs ∧ l.name = name := by
  unfold language_find_list at h
  refine ⟨List.mem_of_find?_eq_some h, ?_⟩
  have := List.find?_some h
  simpa using this

theorem language_add_list_mem (langs : List language_) (name : CStr) :
    ∀ l ∈ langs, l ∈ (language_add_list langs name).2 := by
  intro l hl
  unfold language_add_list
  cases hf : language_find_list langs name with
  | some x => simpa using hl
  | none => simp [hl]

theorem language_add_list_new_invalid (langs : List language_) (name : CStr) :
    ∀ l ∈ (language_add_list langs name).2, l ∈ langs ∨ l.flags = 0 := by
  intro l hl
  unfold language_add_list at hl
  cases hf : language_find_list langs name with
  | some x => rw [hf] at hl; simp at hl; exact Or.inl hl
  | none =>
    rw [hf] at hl
    simp at hl
    rcases hl with hl | hl
    · exact Or.inl hl
    · right; rw [hl]

theorem valid_or_flag (f : Nat) : ((f ||| LANG_VALID) &&& LANG_VALID) = 1 := by
  simp [LANG_VALID, Nat.and_one_is_mod, Nat.or_mod_two_eq_one]

theorem preservesValid_refl (a : List language_) : preservesValid a a :=
  fun l hl => ⟨l, hl, rfl, fun h => h⟩

theorem preservesValid_trans {a b c : List language_}
    (h1 : preservesValid a b) (h2 : preservesValid b c) : preservesValid a c := by
  intro l hl
  obtain ⟨m, hm, hname, hv⟩ := h1 l hl
  obtain ⟨k, hk, hname2, hv2⟩ := h2 m hm
  exact ⟨k, hk, hname2.trans hname, fun h => hv2 (hv h)⟩

theorem set_lang_valid_preserves (a : List language_) (n : CStr) :
    preservesValid a (set_lang_valid a n) := by
  intro l hl
  unfold set_lang_valid
  by_cases h : (l.name == n) = true
  · refine ⟨{ l with flags := l.flags ||| LANG_VALID }, ?_, rfl, ?_⟩
    · have := List.mem_map_of_mem (fun x : language_ =>
        if x.name == n then { x with flags := x.flags ||| LANG_VALID } else x) hl
      simpa [h] using this
    · intro _
      simp [language_is_valid, valid_or_flag]
  · refine ⟨l, ?_, rfl, fun hv => hv⟩
    have := List.mem_map_of_mem (fun x : language_ =>
      if x.name == n then { x with flags := x.flags ||| LANG_VALID } else x) hl
    simpa [h] using this

theorem language_add_valid_preserves (a : List language_) (n : CStr) :
    preservesValid a (language_add_valid a n) := by
  unfold language_add_valid
  refine preservesValid_trans (b := (language_add_list a n).2) ?_ ?_
  · intro l hl
    exact ⟨l, language_add_list_mem a n l hl, rfl, fun h => h⟩
  · exact set_lang_valid_preserves _ n

theorem foldl_add_valid_preserves (es : List CStr) (a : List language_) :
    preservesValid a
      (es.foldl (fun acc e => if keepDirent e then language_add_valid acc e else acc) a) := by
  induction es generalizing a with
  | nil => exact preservesValid_refl a
  | cons e rest ih =>
    simp only [List.foldl_cons]
    by_cases h : keepDirent e
    · simp only [h, if_true]
      exact preservesValid_trans (language_add_valid_preserves a e) (ih _)
    · simp only [h, if_false]
      exact ih a

theorem language_init_list_preserves (dirents : Option (List CStr)) (a : List language_) :
    preservesValid a (language_init_list dirents a) := by
  unfold language_init_list
  cases dirents with
  | none => exact language_add_valid_preserves a _
  | some es =>
    exact preservesValid_trans (language_add_valid_preserves a _) (foldl_add_valid_preserves es _)

/-- Claim C1 counterexample: with the internal table mapping "a" to "b" and
the language table empty (so the language table does not contain the internal
replacement "b"), `translation_get "a"` returns "b", the internal
replacement, and not the original input "a" that the claim requires. -/
theorem C1_counterexample :
    mowgli_patricia_retrieve
      (itranslation_create translation_init ("a".data) ("b".data)).itranslation_tree
      ("a".data) = some ("b".data) ∧
    mowgli_patricia_retrieve
      (itranslation_create translation_init ("a".data) ("b".data)).translation_tree
      ("b".data) = none ∧
    translation_get (itranslation_create translation_init ("a".data) ("b".data)) ("a".data)
      = "b".data ∧
    "b".data ≠ "a".data := by decide

/-- Claim C1 (amended): if the internal table contains `s` with replacement
`r` and the language table does not contain `r`, then `translation_get s`
returns the internal replacement `r` (the step-1 result is kept, not
discarded; the original input is not restored). -/
theorem C1_amended_internal_replacement_kept (st : CultureState) (s r : CStr)
    (h1 : mowgli_patricia_retrieve st.itranslation_tree s = some r)
    (h2 : mowgli_patricia_retrieve st.translation_tree r = none) :
    translation_get st s = r := by
  simp [translation_get, h1, h2]

/-- Witness for the amended claim C1 at a concrete state. -/
theorem C1_amended_witness :
    translation_get (itranslation_create translation_init ("a".data) ("b".data)) ("a".data)
      = "b".data :=
  C1_amended_internal_replacement_kept
    (itranslation_create translation_init ("a".data) ("b".data)) ("a".data) ("b".data)
    (by decide) (by decide)

/-- Claim C7: a string present as a key in neither table is returned
unchanged by `translation_get`. -/
theorem C7_absent_returns_input (st : CultureState) (s : CStr)
    (h1 : mowgli_patricia_retrieve st.itranslation_tree s = none)
    (h2 : mowgli_patricia_retrieve st.translation_tree s = none) :
    translation_get st s = s := by
  simp [translation_get, h1, h2]

/-- Witness for claim C7 at the freshly initialized state. -/
theorem C7_witness : translation_get translation_init ("hello".data) = "hello".data :=
  C7_absent_returns_input translation_init ("hello".data) (by decide) (by decide)

/-- Claim C2: the display-variant `translation_create` rewrites every
backslash + '2' in both key and value to the 0x02 byte at insertion time
(first conjunct: the stored strings are the rewrite of the truncated inputs;
second conjunct: the rewrite leaves no occurrence behind), and the rewrite is
not applied again at lookup time: after `create("a\2b", "c\2d")` the stored
entry is key "a"+0x02+"b" with value "c"+0x02+"d", looking up the rewritten
key succeeds, and looking up the unrewritten escape text misses. -/
theorem C2_escape_rewrite_at_insert :
    (∀ st k v, (translation_create st k v).translation_tree
      = mowgli_patricia_add st.translation_tree
          (replace_backslash2 (strlcpy k BUFSIZE)) (replace_backslash2 (strlcpy v BUFSIZE))) ∧
    (∀ k, containsEsc (replace_backslash2 k) = false) ∧
    (translation_create translation_init ("a\\2b".data) ("c\\2d".data)).translation_tree
      = [("a\x02b".data, "c\x02d".data)] ∧
    translation_get (translation_create translation_init ("a\\2b".data) ("c\\2d".data))
      ("a\x02b".data) = "c\x02d".data ∧
    translation_get (translation_create translation_init ("a\\2b".data) ("c\\2d".data))
      ("a\\2b".data) = "a\\2b".data :=
  ⟨fun _ _ _ => rfl, containsEsc_replace, by decide, by decide, by decide⟩

/-- Claim C5: after `language_init` with a failing directory scan, the
registry holds exactly the builtin "en" marked valid, and `language_names`
returns "en". -/
theorem C5_init_unreadable_dir :
    (language_init translation_init none).language_list
      = [{ name := "en".data, flags := LANG_VALID }] ∧
    language_is_valid { name := ("en".data : CStr), flags := LANG_VALID } = true ∧
    language_names (language_init translation_init none) = "en".data := by decide

/-- Claim C10: the two translation trees and the language registry are
pairwise independent state: each mutating operation leaves the other two
structures of the state unchanged. -/
theorem C10_frame_independence (st : CultureState) (k v n : CStr) (d : Option (List CStr)) :
    (itranslation_create st k v).translation_tree = st.translation_tree ∧
    (itranslation_create st k v).language_list = st.language_list ∧
    (itranslation_destroy st k).translation_tree = st.translation_tree ∧
    (itranslation_destroy st k).language_list = st.language_list ∧
    (translation_create st k v).itranslation_tree = st.itranslation_tree ∧
    (translation_create st k v).language_list = st.language_list ∧
    (translation_destroy st k).itranslation_tree = st.itranslation_tree ∧
    (translation_destroy st k).language_list = st.language_list ∧
    (language_add st n).2.itranslation_tree = st.itranslation_tree ∧
    (language_add st n).2.translation_tree = st.translation_tree ∧
    (language_init st d).itranslation_tree = st.itranslation_tree ∧
    (language_init st d).translation_tree = st.translation_tree :=
  ⟨rfl, rfl, rfl, rfl, rfl, rfl, rfl, rfl, rfl, rfl, rfl, rfl⟩

theorem retrieve_add_self (tree : mowgli_patricia_t) (key val : CStr)
    (h : mowgli_patricia_retrieve tree key = none) :
    mowgli_patricia_retrieve (mowgli_patricia_add tree key val) key = some val := by
  unfold mowgli_patricia_add
  rw [h]
  rw [retrieve_append _ _ _ h]
  simp [mowgli_patricia_retrieve]

theorem replace_strlcpy_length_le (k : CStr) :
    (replace_backslash2 (strlcpy k BUFSIZE)).length ≤ BUFSIZE - 1 := by
  have h1 := replace_length_le (strlcpy k BUFSIZE)
  have h2 : (strlcpy k BUFSIZE).length = min (BUFSIZE - 1) k.length := by
    simp [strlcpy, List.length_take]
  omega

theorem replace_strlcpy_ne_self (k : CStr) (h : containsEsc k = true) :
    replace_backslash2 (strlcpy k BUFSIZE) ≠ k := by
  intro heq
  have hlt : (replace_backslash2 (strlcpy k BUFSIZE)).length < k.length := by
    by_cases hlen : k.length ≤ BUFSIZE - 1
    · rw [strlcpy, List.take_of_length_le hlen]
      exact replace_length_lt k h
    · have h1 := replace_length_le (strlcpy k BUFSIZE)
      have h2 : (strlcpy k BUFSIZE).length = min (BUFSIZE - 1) k.length := by
        simp [strlcpy, List.length_take]
      omega
  rw [heq] at hlt
  omega

set_option maxRecDepth 8000 in
/-- Claim C3 counterexample: a key of length `BUFSIZE` passed to the
internal-variant `itranslation_create` is stored verbatim, untruncated — the
stored key equals the full input, whose length exceeds the `BUFSIZE - 1`
content bound, and differs from its truncation. -/
theorem C3_counterexample :
    (itranslation_create translation_init (List.replicate BUFSIZE 'a') ("v".data)).itranslation_tree
      = [(List.replicate BUFSIZE 'a', "v".data)] ∧
    (List.replicate BUFSIZE 'a' : CStr).length = BUFSIZE ∧
    strlcpy (List.replicate BUFSIZE 'a') BUFSIZE ≠ List.replicate BUFSIZE 'a' := by decide

/-- Claim C3 (amended): only the display-variant `translation_create`
truncates key and value to the fixed buffer bound (`BUFSIZE - 1` content
bytes) before storing; the internal-variant `itranslation_create` stores key
and value verbatim at any length, and neither variant signals an error. -/
theorem C3_amended_truncation_display_only (st : CultureState) (k v : CStr)
    (hifresh : mowgli_patricia_retrieve st.itranslation_tree k = none)
    (hlfresh : mowgli_patricia_retrieve st.translation_tree
      (replace_backslash2 (strlcpy k BUFSIZE)) = none) :
    (itranslation_create st k v).itranslation_tree = st.itranslation_tree ++ [(k, v)] ∧
    (translation_create st k v).translation_tree
      = st.translation_tree
        ++ [(replace_backslash2 (strlcpy k BUFSIZE), replace_backslash2 (strlcpy v BUFSIZE))] ∧
    (replace_backslash2 (strlcpy k BUFSIZE)).length ≤ BUFSIZE - 1 ∧
    (replace_backslash2 (strlcpy v BUFSIZE)).length ≤ BUFSIZE - 1 := by
  refine ⟨?_, ?_, replace_strlcpy_length_le k, replace_strlcpy_length_le v⟩
  · show mowgli_patricia_add st.itranslation_tree k v = st.itranslation_tree ++ [(k, v)]
    unfold mowgli_patricia_add
    rw [hifresh]
  · show mowgli_patricia_add st.translation_tree
      (replace_backslash2 (strlcpy k BUFSIZE)) (replace_backslash2 (strlcpy v BUFSIZE))
      = _
    unfold mowgli_patricia_add
    rw [hlfresh]

/-- Witness for the amended claim C3 at a concrete state. -/
theorem C3_amended_witness :
    (itranslation_create translation_init ("k".data) ("w".data)).itranslation_tree
      = [] ++ [("k".data, "w".data)] :=
  (C3_amended_truncation_display_only translation_init ("k".data) ("w".data)
    (by decide) (by decide)).1

/-- Claim C8: on each table, `create` of a key followed by `destroy` of the
same key makes a subsequent `get` of that key miss, and `destroy` of an
absent key leaves the whole state unchanged. -/
theorem C8_create_destroy_get_misses (st : CultureState) (ik iv k v : CStr)
    (hi : mowgli_patricia_retrieve st.itranslation_tree ik = none)
    (hl : mowgli_patricia_retrieve st.translation_tree k = none) :
    mowgli_patricia_retrieve
      (itranslation_destroy (itranslation_create st ik iv) ik).itranslation_tree ik = none ∧
    mowgli_patricia_retrieve
      (translation_destroy (translation_create st k v) k).translation_tree k = none ∧
    itranslation_destroy st ik = st ∧
    translation_destroy st k = st := by
  refine ⟨retrieve_delete_self _ _, retrieve_delete_self _ _, ?_, ?_⟩
  · show { st with itranslation_tree := mowgli_patricia_delete st.itranslation_tree ik } = st
    rw [delete_absent _ _ hi]
  · show { st with translation_tree := mowgli_patricia_delete st.translation_tree k } = st
    rw [delete_absent _ _ hl]

/-- Witness for claim C8 at a concrete state. -/
theorem C8_witness :
    mowgli_patricia_retrieve
      (itranslation_destroy (itranslation_create translation_init ("k".data) ("v".data))
        ("k".data)).itranslation_tree ("k".data) = none :=
  (C8_create_destroy_get_misses translation_init ("k".data) ("v".data) ("a".data) ("b".data)
    (by decide) (by decide)).1

/-- Claim C9: `translation_destroy` deletes by its argument verbatim, without
the backslash + '2' rewrite of `translation_create`: for a key containing the
escape sequence, destroying by the original key leaves the stored (rewritten)
entry retrievable, and destroying by the rewritten key removes it. -/
theorem C9_destroy_no_rewrite (st : CultureState) (k v : CStr)
    (hesc : containsEsc k = true)
    (hfresh : mowgli_patricia_retrieve st.translation_tree
      (replace_backslash2 (strlcpy k BUFSIZE)) = none) :
    mowgli_patricia_retrieve
      (translation_destroy (translation_create st k v) k).translation_tree
      (replace_backslash2 (strlcpy k BUFSIZE))
      = some (replace_backslash2 (strlcpy v BUFSIZE)) ∧
    mowgli_patricia_retrieve
      (translation_destroy (translation_destroy (translation_create st k v) k)
        (replace_backslash2 (strlcpy k BUFSIZE))).translation_tree
      (replace_backslash2 (strlcpy k BUFSIZE)) = none := by
  have hne := replace_strlcpy_ne_self k hesc
  constructor
  · show mowgli_patricia_retrieve
      (mowgli_patricia_delete
        (mowgli_patricia_add st.translation_tree (replace_backslash2 (strlcpy k BUFSIZE))
          (replace_backslash2 (strlcpy v BUFSIZE))) k)
      (replace_backslash2 (strlcpy k BUFSIZE)) = _
    rw [retrieve_delete_other _ _ _ hne]
    exact retrieve_add_self _ _ _ hfresh
  · exact retrieve_delete_self _ _

/-- Witness for claim C9 at a concrete state. -/
theorem C9_witness :
    mowgli_patricia_retrieve
      (translation_destroy (translation_create translation_init ("a\\2b".data) ("x".data))
        ("a\\2b".data)).translation_tree
      (replace_backslash2 (strlcpy ("a\\2b".data) BUFSIZE))
      = some (replace_backslash2 (strlcpy ("x".data) BUFSIZE)) :=
  (C9_destroy_no_rewrite translation_init ("a\\2b".data) ("x".data)
    (by decide) (by decide)).1

theorem language_find_list_append_self (langs : List language_) (name : CStr)
    (hf : language_find_list langs name = none) :
    language_find_list (langs ++ [{ name := name, flags := 0 }]) name
      = some { name := name, flags := 0 } := by
  unfold language_find_list at *
  rw [List.find?_append, hf]
  simp

theorem language_add_list_idem (langs : List language_) (name : CStr) :
    language_add_list (language_add_list langs name).2 name
      = language_add_list langs name := by
  cases hf : language_find_list langs name with
  | some l =>
    have h1 : language_add_list langs name = (l, langs) := by
      simp [language_add_list, hf]
    rw [h1]
    simp [language_add_list, hf]
  | none =>
    have h1 : language_add_list langs name
        = ({ name := name, flags := 0 }, langs ++ [{ name := name, flags := 0 }]) := by
      simp [language_add_list, hf]
    rw [h1]
    simp [language_add_list, language_find_list_append_self langs name hf]

theorem count_eq_one_of_mem_nodup {α : Type} [BEq α] [LawfulBEq α] (l : List α) (a : α)
    (d : l.Nodup) (h : a ∈ l) : l.count a = 1 := by
  induction l with
  | nil => simp at h
  | cons x xs ih =>
    rcases List.mem_cons.mp h with rfl | hmem
    · have hx : a ∉ xs := (List.nodup_cons.mp d).1
      rw [List.count_cons_self, List.count_eq_zero.mpr hx]
    · have hc := ih (List.nodup_cons.mp d).2 hmem
      have hne : x ≠ a := by
        rintro rfl
        exact (List.nodup_cons.mp d).1 hmem
      rw [List.count_cons, hc, if_neg (by simp [hne])]

theorem language_add_list_count (langs : List language_) (name : CStr)
    (hnodup : (langs.map language_.name).Nodup) :
    ((language_add_list langs name).2.map language_.name).count name = 1 := by
  cases hf : language_find_list langs name with
  | some l =>
    obtain ⟨hmem, hname⟩ := language_find_list_some langs name l hf
    have hin : name ∈ langs.map language_.name := hname ▸ List.mem_map_of_mem _ hmem
    have h1 : (language_add_list langs name).2 = langs := by
      simp [language_add_list, hf]
    rw [h1]
    exact count_eq_one_of_mem_nodup _ _ hnodup hin
  | none =>
    have habs : name ∉ langs.map language_.name := by
      rw [language_find_list_eq_none] at hf
      intro hmem
      obtain ⟨l, hl, hn⟩ := List.mem_map.mp hmem
      exact hf l hl hn
    have h1 : (language_add_list langs name).2 = langs ++ [{ name := name, flags := 0 }] := by
      simp [language_add_list, hf]
    rw [h1, List.map_append, List.count_append, List.count_eq_zero.mpr habs]
    simp

/-- Claim C4: `language_add` is idempotent: when the registry's names are
unique, a second `language_add` of the same name returns the very record the
first call returned, performs no mutation of the state, and the registry's
name list contains the name exactly once. -/
theorem C4_language_add_idempotent (st : CultureState) (name : CStr)
    (hnodup : (st.language_list.map language_.name).Nodup) :
    (language_add (language_add st name).2 name).1 = (language_add st name).1 ∧
    (language_add (language_add st name).2 name).2 = (language_add st name).2 ∧
    ((language_add st name).2.language_list.map language_.name).count name = 1 := by
  have hidem := language_add_list_idem st.language_list name
  refine ⟨?_, ?_, language_add_list_count st.language_list name hnodup⟩
  · show (language_add_list (language_add_list st.language_list name).2 name).1
      = (language_add_list st.language_list name).1
    rw [hidem]
  · show ({ (language_add st name).2 with language_list :=
        (language_add_list (language_add_list st.language_list name).2 name).2 } : CultureState)
      = (language_add st name).2
    rw [hidem]
    rfl

/-- Witness for claim C4 at a concrete state. -/
theorem C4_witness :
    ((language_add translation_init ("fr".data)).2.language_list.map language_.name).count
      ("fr".data) = 1 :=
  (C4_language_add_idempotent translation_init ("fr".data) (by decide)).2.2

/-- Claim C6: registry records are created Invalid by `language_add` (every
record of the post-`add` registry was already present or has its valid flag
unset), `language_add` never alters or destroys an existing record, and
`language_init` — the only operation that sets the valid flag — never clears
a valid flag and never destroys a record (each prior record keeps its name
and its validity).  The query operations (`language_find`, `language_names`,
`language_get_name`, `language_is_valid`) are pure and return no state. -/
theorem C6_language_record_lifecycle (st : CultureState) (name : CStr)
    (dirents : Option (List CStr)) :
    (∀ l ∈ (language_add st name).2.language_list,
        l ∈ st.language_list ∨ language_is_valid l = false) ∧
    (∀ l ∈ st.language_list, l ∈ (language_add st name).2.language_list) ∧
    preservesValid st.language_list (language_init st dirents).language_list := by
  refine ⟨?_, ?_, ?_⟩
  · intro l hl
    rcases language_add_list_new_invalid st.language_list name l hl with h | h
    · exact Or.inl h
    · exact Or.inr (by simp [language_is_valid, h, LANG_VALID])
  · exact language_add_list_mem st.language_list name
  · exact language_init_list_preserves dirents st.language_list

/-- Witness for claim C6 at a concrete state: the valid builtin record
survives a later `language_add` untouched. -/
theorem C6_witness :
    ({ name := "en".data, flags := LANG_VALID } : language_)
      ∈ (language_add (language_init translation_init none) ("fr".data)).2.language_list :=
  (C6_language_record_lifecycle (language_init translation_init none) ("fr".data) none).2.1
    { name := "en".data, flags := LANG_VALID } (by decide)
